import Mathlib

/-!
Verification of the aligned-tier table construction and synchronization
engine of textgrid_explorer, shallowly embedded from
`src/textgrid_explorer/utils.py` and `src/textgrid_explorer/explorer_window.py`.

Modelling conventions:
* annotation times (Python floats parsed from the file, compared only by
  exact equality, never by arithmetic) are embedded as `Rat`;
* file paths are strings;
* the external `mytextgrid` parser is a black box: each discovered file is
  paired with the parser's outcome (`Option RawTextGrid`, `none` when the
  parse or the encoding detection raised);
* Python `dict` becomes an association list with the dict's semantics
  (overwrite in place on an existing key, append on a fresh key, values
  listed in insertion order of first-seen key);
* an uncaught Python exception is `Except.error`.
-/

namespace TGX

/-- Annotation times: the source joins intervals by exact equality on the
parsed xmin/xmax values and never computes with them, so an exact value
type with decidable equality is all the embedding needs. -/
abbrev Time := Rat

/-- File paths, abstracted to strings. -/
abbrev FsPath := String

/-- An interval as produced by the external parser: start, end, text. -/
structure Interval where
  xmin : Time
  xmax : Time
  text : String
deriving DecidableEq, Repr

/-- A tier as produced by the external parser. -/
structure Tier where
  name : String
  intervals : List Interval
deriving DecidableEq, Repr

/-- The external parser's output (`mytextgrid.read_from_file`): an ordered
sequence of tiers. -/
structure RawTextGrid where
  tiers : List Tier
deriving DecidableEq, Repr

/-- An interval after `read_textgrid` ran over the document.  Attributes a
Python object may or may not carry are `Option`s; object back-references
are arena coordinates (the owning tier's position, the owning document's
file path). -/
structure AnnInterval where
  xmin : Time
  xmax : Time
  text : String
  file_path : Option FsPath
  tier : Option Nat
  textgrid : Option FsPath
  modified : Option Bool
deriving DecidableEq, Repr

/-- A tier after `read_textgrid` ran over the document.  `parent` is a
back-reference from the tier to its document; `read_textgrid` never
assigns it. -/
structure AnnTier where
  name : String
  index : Option Nat
  parent : Option FsPath
  intervals : List AnnInterval
deriving DecidableEq, Repr

/-- A loaded document.  `parentSelf` records whether the document's own
`parent` attribute was assigned; the loop body `tg.parent = tg` assigns
it to the document itself, once per tier iteration. -/
structure TextGrid where
  file_path : Option FsPath
  parentSelf : Bool
  tiers : List AnnTier
deriving DecidableEq, Repr

/-- The attributes `read_textgrid` sets on each interval:
`item.file_path = path`, `item.tier = tier`, `item.textgrid = tg`,
`item.modified = False`. -/
def annotateInterval (path : FsPath) (tierIdx : Nat) (i : Interval) : AnnInterval :=
  { xmin := i.xmin, xmax := i.xmax, text := i.text,
    file_path := some path, tier := some tierIdx,
    textgrid := some path, modified := some false }

/-- The attributes `read_textgrid` sets per tier: only `tier.index = index`.
The source's loop body assigns `tg.parent = tg` (on the document, not the
tier), so `parent` stays unassigned. -/
def annotateTier (path : FsPath) (idx : Nat) (t : Tier) : AnnTier :=
  { name := t.name, index := some idx, parent := none,
    intervals := t.intervals.map (annotateInterval path idx) }

/-- `read_textgrid` from utils.py: every failure inside the `try` block is
swallowed and turned into `None`; on success the provenance attributes are
attached.  `tg.parent = tg` runs once per tier, hence `parentSelf` is set
exactly when the document has at least one tier. -/
def read_textgrid (path : FsPath) (parsed : Option RawTextGrid) : Option TextGrid :=
  match parsed with
  | none => none
  | some tg =>
      some { file_path := some path,
             parentSelf := !tg.tiers.isEmpty,
             tiers := tg.tiers.enum.map (fun it => annotateTier path it.1 it.2) }

/-- The inner loop of `get_tier_names`: accumulate tier names, first-seen
order, duplicates dropped. -/
def addTierNames (names : List String) (tg : TextGrid) : List String :=
  tg.tiers.foldl (fun ns t => if ns.contains t.name then ns else ns ++ [t.name]) names

/-- `get_tier_names` from utils.py.  `read_textgrid` never raises (it
returns `None` on failure), so the `try/except` around it never fires;
when a file fails to load, `for tier in tg:` iterates over `None` and the
resulting TypeError propagates out of the whole call (`Except.error`). -/
def get_tier_names (files : List (FsPath × Option RawTextGrid)) :
    Except Unit (List String) :=
  files.foldlM (fun names pf =>
    match read_textgrid pf.1 pf.2 with
    | none => Except.error ()
    | some tg => Except.ok (addTierNames names tg)) []

/-- Alignment key: the `(xmin, xmax)` pair of an interval. -/
abbrev Key := Time × Time

/-- One slot of a table row: the filename cell, an interval cell, or
Python `None`. -/
inductive Cell where
  | path (p : FsPath)
  | interval (i : AnnInterval)
  | none
deriving DecidableEq, Repr

abbrev Row := List Cell

/-- The accumulation map `aligned_data`, embedded as an association list
with Python-dict semantics. -/
abbrev AlignedData := List (Key × Row)

/-- `key in aligned_data`. -/
def keyMem (m : AlignedData) (k : Key) : Bool :=
  m.any (fun e => decide (e.1 = k))

/-- `aligned_data[key] = row`: overwrite in place when the key exists,
append otherwise (Python-dict insertion semantics). -/
def dictInsert (m : AlignedData) (k : Key) (v : Row) : AlignedData :=
  if keyMem m k then m.map (fun e => if e.1 = k then (k, v) else e)
  else m ++ [(k, v)]

/-- `aligned_data[key][idx] = cell`: mutate one slot of the row stored at
`key` (a no-op on keys that are absent; callers guard on membership). -/
def dictSetSlot (m : AlignedData) (k : Key) (idx : Nat) (c : Cell) : AlignedData :=
  m.map (fun e => if e.1 = k then (e.1, e.2.set idx c) else e)

/-- Python `str.isspace` on the characters the data contains (the ASCII
whitespace class stripped by `str.strip`). -/
def pyIsSpace (c : Char) : Bool :=
  c == ' ' || c == '\t' || c == '\n' || c == '\r' || c == '\x0b' || c == '\x0c'

/-- Python `not text.strip()`: the text is empty or all-whitespace. -/
def blankText (s : String) : Bool :=
  s.toList.all pyIsSpace

/-- The fresh row built for a primary interval:
`row = [None]*len(headers); row[0] = path; row[1] = primary_interval`. -/
def freshRow (headersLen : Nat) (path : FsPath) (i : AnnInterval) : Row :=
  ((List.replicate headersLen Cell.none).set 0 (Cell.path path)).set 1 (Cell.interval i)

/-- One primary interval: skipped when its text strips to empty, otherwise
inserted at its `(xmin, xmax)` key. -/
def primStep (path : FsPath) (headersLen : Nat) (m : AlignedData) (i : AnnInterval) :
    AlignedData :=
  if blankText i.text then m
  else dictInsert m (i.xmin, i.xmax) (freshRow headersLen path i)

/-- The primary-interval loop of `create_aligned_tier_table`. -/
def insertPrimaryRows (path : FsPath) (headersLen : Nat) (ivs : List AnnInterval)
    (m : AlignedData) : AlignedData :=
  ivs.foldl (primStep path headersLen) m

/-- Python `headers.index(name)` wrapped in `try`: position of the first
matching header, `none` when absent. -/
def firstIdx (headers : List String) (name : String) : Option Nat :=
  match headers with
  | [] => none
  | h :: hs => if h = name then some 0 else (firstIdx hs name).map (· + 1)

/-- `primary_tiers = [tier for tier in tg if tier.name == p]` followed by
`primary_tiers[0]`, together with the tier's position (used to model the
object-identity test `tier == primary_tier`). -/
def findPrimaryAux (p : String) : Nat → List AnnTier → Option (Nat × AnnTier)
  | _, [] => Option.none
  | j, t :: ts => if t.name = p then some (j, t) else findPrimaryAux p (j + 1) ts

def findPrimary (p : String) (tiers : List AnnTier) : Option (Nat × AnnTier) :=
  findPrimaryAux p 0 tiers

/-- One secondary interval: when its key is present in the map, write the
interval into the slot named after its tier (first matching header). -/
def alignStep (headers : List String) (name : String) (m : AlignedData)
    (i : AnnInterval) : AlignedData :=
  if keyMem m (i.xmin, i.xmax) then
    match firstIdx headers name with
    | some idx => dictSetSlot m (i.xmin, i.xmax) idx (Cell.interval i)
    | Option.none => m
  else m

/-- The interval loop over one secondary tier. -/
def alignTierIntervals (headers : List String) (name : String)
    (ivs : List AnnInterval) (m : AlignedData) : AlignedData :=
  ivs.foldl (alignStep headers name) m

/-- The `for tier in tg:` secondary loop, driven over position-tier pairs;
the position test `jt.1 = primaryIdx` models Python's object-identity
comparison `tier == primary_tier` (distinct list elements of a parsed
document are distinct objects). -/
def secPass (headers secondaryNames : List String) (primaryIdx : Nat)
    (l : List (Nat × AnnTier)) (m : AlignedData) : AlignedData :=
  l.foldl (fun m jt =>
    if jt.1 = primaryIdx then m
    else if secondaryNames.contains jt.2.name then
      alignTierIntervals headers jt.2.name jt.2.intervals m
    else m) m

def alignSecondaries (headers secondaryNames : List String) (primaryIdx : Nat)
    (tiers : List AnnTier) (m : AlignedData) : AlignedData :=
  secPass headers secondaryNames primaryIdx tiers.enum m

/-- The body that the source re-enters once per tier of the document:
locate the first tier named `p` (skip the file when there is none), insert
its non-blank intervals, then align every other secondary-named tier. -/
def processDocBody (p : String) (secondaryNames headers : List String)
    (path : FsPath) (tiers : List AnnTier) (m : AlignedData) : AlignedData :=
  match findPrimary p tiers with
  | Option.none => m
  | some jt =>
      alignSecondaries headers secondaryNames jt.1 tiers
        (insertPrimaryRows path headers.length jt.2.intervals m)

/-- The source's per-file processing: `for tier in tg:` immediately
shadows the loop variable, so the body above runs once per tier of the
document. -/
def processDoc (p : String) (secondaryNames headers : List String)
    (path : FsPath) (tiers : List AnnTier) (m : AlignedData) : AlignedData :=
  tiers.foldl (fun m _ => processDocBody p secondaryNames headers path tiers m) m

/-- A scan root: the two predicates the engine checks, plus the
`rglob` result (the recursive .TextGrid match) in traversal order, with
its parse outcome. -/
structure Dir where
  isAbsolute : Bool
  isDir : Bool
  files : List (FsPath × Option RawTextGrid)
deriving Repr

/-- The file loop of `create_aligned_tier_table`, threading one
accumulation map through the whole traversal.  As in `get_tier_names`,
a file whose load failed makes `for tier in tg:` iterate `None`, and the
TypeError propagates (`Except.error`). -/
def foldFiles (p : String) (secondaryNames headers : List String) :
    List (FsPath × Option RawTextGrid) → AlignedData → Except Unit AlignedData
  | [], m => Except.ok m
  | pf :: fs, m =>
      match read_textgrid pf.1 pf.2 with
      | Option.none => Except.error ()
      | some tg => foldFiles p secondaryNames headers fs
          (processDoc p secondaryNames headers pf.1 tg.tiers m)

/-- `create_aligned_tier_table` from utils.py: headers are fixed before
the traversal; the rows are the accumulation map's values in storage
order. -/
def create_aligned_tier_table (d : Dir) (p : String) (secondaryNames : List String) :
    Except Unit (List String × List Row) :=
  if d.isDir = false ∨ d.isAbsolute = false then Except.ok ([], [])
  else
    (foldFiles p secondaryNames ("filename" :: p :: secondaryNames) d.files []).map
      (fun m => ("filename" :: p :: secondaryNames, m.map (fun e => e.2)))

/-- The file loop with the per-document body entered exactly once per
document (the behaviour §4.4/§9 of the specification names as intended). -/
def foldFilesOnce (p : String) (secondaryNames headers : List String) :
    List (FsPath × Option RawTextGrid) → AlignedData → Except Unit AlignedData
  | [], m => Except.ok m
  | pf :: fs, m =>
      match read_textgrid pf.1 pf.2 with
      | Option.none => Except.error ()
      | some tg => foldFilesOnce p secondaryNames headers fs
          (processDocBody p secondaryNames headers pf.1 tg.tiers m)

/-- The alignment engine that matches the primary tier name once per
document and aligns secondaries once. -/
def create_aligned_tier_table_once (d : Dir) (p : String)
    (secondaryNames : List String) : Except Unit (List String × List Row) :=
  if d.isDir = false ∨ d.isAbsolute = false then Except.ok ([], [])
  else
    (foldFilesOnce p secondaryNames ("filename" :: p :: secondaryNames) d.files []).map
      (fun m => ("filename" :: p :: secondaryNames, m.map (fun e => e.2)))

/-- Byte sequences, one `Nat` (0–255) per byte. -/
abbrev Bytes := List Nat

/-- Binary-mode `f.readline()`: the bytes up to and including the first
`\n` (0x0A), paired with the remaining bytes (`f.read()`). -/
def readlineSplit : Bytes → Bytes × Bytes
  | [] => ([], [])
  | b :: bs =>
      if b = 0x0a then ([b], bs)
      else
        let r := readlineSplit bs
        (b :: r.1, r.2)

/-- Continuation byte 0x80–0xBF. -/
def contByte (b : Nat) : Bool :=
  decide (0x80 ≤ b) && decide (b ≤ 0xbf)

/-- Strict UTF-8 validity of a byte sequence, as decided by Python's
`bytes.decode` with the `utf-8` codec: no overlong forms, no surrogates,
nothing above U+10FFFF. -/
def isValidUtf8 : Bytes → Bool
  | [] => true
  | b1 :: rest =>
      if b1 ≤ 0x7f then isValidUtf8 rest
      else if 0xc2 ≤ b1 ∧ b1 ≤ 0xdf then
        match rest with
        | b2 :: rest2 => contByte b2 && isValidUtf8 rest2
        | [] => false
      else if b1 = 0xe0 then
        match rest with
        | b2 :: b3 :: rest3 =>
            decide (0xa0 ≤ b2) && decide (b2 ≤ 0xbf) && contByte b3 && isValidUtf8 rest3
        | _ => false
      else if (0xe1 ≤ b1 ∧ b1 ≤ 0xec) ∨ b1 = 0xee ∨ b1 = 0xef then
        match rest with
        | b2 :: b3 :: rest3 => contByte b2 && contByte b3 && isValidUtf8 rest3
        | _ => false
      else if b1 = 0xed then
        match rest with
        | b2 :: b3 :: rest3 =>
            decide (0x80 ≤ b2) && decide (b2 ≤ 0x9f) && contByte b3 && isValidUtf8 rest3
        | _ => false
      else if b1 = 0xf0 then
        match rest with
        | b2 :: b3 :: b4 :: rest4 =>
            decide (0x90 ≤ b2) && decide (b2 ≤ 0xbf) && contByte b3 && contByte b4 &&
              isValidUtf8 rest4
        | _ => false
      else if 0xf1 ≤ b1 ∧ b1 ≤ 0xf3 then
        match rest with
        | b2 :: b3 :: b4 :: rest4 =>
            contByte b2 && contByte b3 && contByte b4 && isValidUtf8 rest4
        | _ => false
      else if b1 = 0xf4 then
        match rest with
        | b2 :: b3 :: b4 :: rest4 =>
            decide (0x80 ≤ b2) && decide (b2 ≤ 0x8f) && contByte b3 && contByte b4 &&
              isValidUtf8 rest4
        | _ => false
      else false

/-- The four tags `detect_praat_encoding` can return. -/
inductive PraatEncoding where
  | utf16le
  | utf16be
  | utf8
  | latin1
deriving DecidableEq, Repr

/-- `detect_praat_encoding` from utils.py over the file's bytes: BOM check
on the first line, then strict UTF-8 validation of the bytes after the
first line, with `latin_1` as the fallback. -/
def detect_praat_encoding (bs : Bytes) : PraatEncoding :=
  let hr := readlineSplit bs
  if [0xff, 0xfe].isPrefixOf hr.1 then PraatEncoding.utf16le
  else if [0xfe, 0xff].isPrefixOf hr.1 then PraatEncoding.utf16be
  else if isValidUtf8 hr.2 then PraatEncoding.utf8
  else PraatEncoding.latin1

/-- A modified cell of the table, reduced to the provenance the save pass
uses: the owning document's file path (`item.textgrid().file_path`). -/
structure CellRef where
  docPath : FsPath
deriving DecidableEq, Repr

/-- The write loop of `TGExplorer.on_save_changes`: walk the modified
indexes, writing each document at most once (`tmp_paths`); a failing
`textgrid.write` raises, aborting the pass. -/
def savePass (writeOk : FsPath → Bool) :
    List CellRef → List FsPath → Except Unit Unit
  | [], _ => Except.ok ()
  | c :: cs, tmp =>
      if tmp.contains c.docPath then savePass writeOk cs tmp
      else if writeOk c.docPath then savePass writeOk cs (tmp ++ [c.docPath])
      else Except.error ()

/-- `TGExplorer.on_save_changes` reduced to its effect on the modified
set: `clear_modified_indexes` runs only when every write succeeded; an
exception from any write propagates out of the slot first, leaving the
set untouched.  (The per-index `setData .. ForegroundRole` call is
presentation-only and not modelled.) -/
def on_save_changes (modified : List CellRef) (writeOk : FsPath → Bool) :
    List CellRef :=
  match savePass writeOk modified [] with
  | Except.ok () => []
  | Except.error () => modified

/-- The keys of the accumulation map, in storage order. -/
def mapKeys (m : AlignedData) : List Key :=
  m.map (fun e => e.1)

/-- Apply a sequence of slot writes to one row. -/
def applyWrites (r : Row) (ws : List (Nat × Cell)) : Row :=
  ws.foldl (fun r w => r.set w.1 w.2) r

/-- The last write a sequence makes to slot `n`, if any. -/
def lastWrite : List (Nat × Cell) → Nat → Option Cell
  | [], _ => Option.none
  | w :: ws, n =>
      match lastWrite ws n with
      | some c => some c
      | Option.none => if w.1 = n then some w.2 else Option.none

/-- The slot writes one secondary tier makes against the row stored at
key `k`. -/
def rowWrites (headers : List String) (name : String) (k : Key)
    (ivs : List AnnInterval) : List (Nat × Cell) :=
  ivs.filterMap (fun i =>
    if (i.xmin, i.xmax) = k then
      match firstIdx headers name with
      | some idx => some (idx, Cell.interval i)
      | Option.none => Option.none
    else Option.none)

/-- The slot writes the whole secondary pass makes against the row stored
at key `k`. -/
def secWrites (headers secondaryNames : List String) (primaryIdx : Nat) (k : Key) :
    List (Nat × AnnTier) → List (Nat × Cell)
  | [] => []
  | jt :: l =>
      (if jt.1 = primaryIdx then []
       else if secondaryNames.contains jt.2.name then
         rowWrites headers jt.2.name k jt.2.intervals
       else []) ++ secWrites headers secondaryNames primaryIdx k l

/-- The last non-blank primary interval whose time span is `k`. -/
def lastPrimaryHit (k : Key) : List AnnInterval → Option AnnInterval
  | [] => Option.none
  | i :: ivs =>
      match lastPrimaryHit k ivs with
      | some i0 => some i0
      | Option.none =>
          if blankText i.text = false ∧ (i.xmin, i.xmax) = k then some i
          else Option.none

/-- The effect of the primary-interval loop on the row stored at key `k`:
replaced by a fresh row for the last matching non-blank interval, or left
alone. -/
def primApplyRow (path : FsPath) (headersLen : Nat) (ivs : List AnnInterval)
    (k : Key) (r : Row) : Row :=
  match lastPrimaryHit k ivs with
  | some i => freshRow headersLen path i
  | Option.none => r

/-- Column `c` repeats the name of an earlier column. -/
def dupCol (headers : List String) (c : Nat) : Prop :=
  ∃ name cPrev, headers[c]? = some name ∧ cPrev < c ∧ headers[cPrev]? = some name

/-- The row invariant behind C10: rows are as wide as the headers and
every duplicate column at position 2 or later is still `None`. -/
def goodRow (headers : List String) (r : Row) : Prop :=
  r.length = headers.length ∧
    ∀ c, 2 ≤ c → dupCol headers c → r[c]? = some Cell.none

/-- Every row of the accumulation map satisfies `goodRow`. -/
def goodMap (headers : List String) (m : AlignedData) : Prop :=
  ∀ e ∈ m, goodRow headers e.2

/-- Concrete documents used by the closed instances below: two one-tier
files whose "word" tiers share the time span (0, 1). -/
def rawA : RawTextGrid := ⟨[⟨"word", [⟨0, 1, "a1"⟩, ⟨1, 2, "a2"⟩]⟩]⟩

def rawB : RawTextGrid := ⟨[⟨"word", [⟨2, 3, "b1"⟩, ⟨0, 1, "b2"⟩]⟩]⟩

def dirAB : Dir :=
  ⟨true, true, [("/d/a.TextGrid", some rawA), ("/d/b.TextGrid", some rawB)]⟩

/-- The annotated form of an interval of `rawA`/`rawB`, for spelling out
expected tables. -/
def annOf (path : FsPath) (x y : Time) (s : String) : AnnInterval :=
  { xmin := x, xmax := y, text := s, file_path := some path, tier := some 0,
    textgrid := some path, modified := some false }

/-- A document with two tiers both named "word": the first supplies the
primary intervals, the second is also listed as a secondary. -/
def rawDup : RawTextGrid :=
  ⟨[⟨"word", [⟨0, 1, "cat"⟩]⟩, ⟨"word", [⟨0, 1, "dog"⟩]⟩]⟩

def dirDup : Dir := ⟨true, true, [("/d/dup.TextGrid", some rawDup)]⟩

/-- When every discovered file loads, the file loop reaches the end of the
traversal and returns the accumulated map. -/
theorem foldFiles_isOk (p : String) (sn hd : List String) :
    ∀ (files : List (FsPath × Option RawTextGrid)) (m : AlignedData),
      (∀ pf ∈ files, pf.2.isSome) →
      ∃ m', foldFiles p sn hd files m = Except.ok m'
  | [], m, _ => ⟨m, rfl⟩
  | pf :: fs, m, h => by
      have hpf : pf.2.isSome := h pf (List.mem_cons_self _ _)
      match hp : pf.2 with
      | Option.none => rw [hp] at hpf; simp at hpf
      | some tg =>
          simp only [foldFiles, hp, read_textgrid]
          exact foldFiles_isOk p sn hd fs _ (fun q hq => h q (List.mem_cons_of_mem _ hq))

/-- C8: an invalid scan root (relative path, or not an existing directory)
makes the alignment engine return the empty table instead of failing. -/
theorem C8_invalid_root_empty_table (d : Dir) (p : String) (s : List String)
    (h : d.isDir = false ∨ d.isAbsolute = false) :
    create_aligned_tier_table d p s = Except.ok ([], []) := by
  unfold create_aligned_tier_table
  rw [if_pos h]

theorem C8_invalid_root_empty_table_witness :
    create_aligned_tier_table ⟨false, true, []⟩ "word" ["phone"] = Except.ok ([], []) :=
  C8_invalid_root_empty_table _ _ _ (Or.inr rfl)

/-- C6: on a valid call (existing absolute root, every discovered file
loadable) the returned headers are exactly `filename`, the primary tier
name, then the secondary tier names in selection order — the file
contents never influence the headers. -/
theorem C6_headers (d : Dir) (p : String) (s : List String)
    (hdir : d.isDir = true) (habs : d.isAbsolute = true)
    (hload : ∀ pf ∈ d.files, pf.2.isSome) :
    ∃ rows, create_aligned_tier_table d p s = Except.ok ("filename" :: p :: s, rows) := by
  obtain ⟨m, hm⟩ := foldFiles_isOk p s ("filename" :: p :: s) d.files [] hload
  refine ⟨m.map (fun e => e.2), ?_⟩
  unfold create_aligned_tier_table
  rw [if_neg (by simp [hdir, habs])]
  rw [hm]
  rfl

theorem C6_headers_witness :
    ∃ rows, create_aligned_tier_table dirAB "word" ["phone"] =
      Except.ok (["filename", "word", "phone"], rows) :=
  C6_headers dirAB "word" ["phone"] rfl rfl (by decide)

/-- C2: refuted on the code.  `read_textgrid` swallows every exception and
returns `None`, so the `try/except` guards in `get_tier_names` and
`create_aligned_tier_table` never fire; the subsequent `for tier in tg:`
iterates over `None` and the TypeError aborts the whole call.  With one
unloadable file next to one loadable file, both operations fail as a
whole (while the loadable file alone is processed fine). -/
theorem C2_bad_file_aborts_scan :
    get_tier_names [("/d/bad.TextGrid", Option.none), ("/d/a.TextGrid", some rawA)] =
      Except.error () ∧
    create_aligned_tier_table
      ⟨true, true, [("/d/bad.TextGrid", Option.none), ("/d/a.TextGrid", some rawA)]⟩
      "word" [] = Except.error () ∧
    get_tier_names [("/d/a.TextGrid", some rawA)] = Except.ok ["word"] :=
  ⟨rfl, rfl, rfl⟩

/-- C3: refuted on the code.  `on_save_changes` has no exception handling:
when writing the first document fails, the raised error aborts the slot
before the second document is written and before `clear_modified_indexes`
runs, so the modified set still holds the cells of BOTH documents — not
only those of the failed one.  (When every write succeeds, the set is
cleared.) -/
theorem C3_save_failure_not_partitioned :
    on_save_changes [⟨"/d/a.TextGrid"⟩, ⟨"/d/b.TextGrid"⟩]
        (fun q => decide (q = "/d/b.TextGrid")) =
      [⟨"/d/a.TextGrid"⟩, ⟨"/d/b.TextGrid"⟩] ∧
    on_save_changes [⟨"/d/a.TextGrid"⟩, ⟨"/d/b.TextGrid"⟩]
        (fun q => decide (q = "/d/b.TextGrid")) ≠ [⟨"/d/a.TextGrid"⟩] ∧
    on_save_changes [⟨"/d/a.TextGrid"⟩, ⟨"/d/b.TextGrid"⟩] (fun _ => true) = [] :=
  ⟨rfl, by decide, rfl⟩

/-- C9: refuted on the code in one conjunct.  The loader does attach the
file path to the document, the 0-based `index` to every tier, and to
every interval its tier/document back-references plus `modified = False`;
and it returns no document on parser failure.  But the loop body reads
`tg.parent = tg` — it sets the DOCUMENT's own `parent` attribute to the
document itself and never gives any tier a back-reference to its
document (every loaded tier's `parent` below stays unassigned). -/
theorem C9_loader_metadata :
    read_textgrid "/d/a.TextGrid" (some rawA) = some
      { file_path := some "/d/a.TextGrid",
        parentSelf := true,
        tiers := [{ name := "word", index := some 0, parent := Option.none,
                    intervals := [annOf "/d/a.TextGrid" 0 1 "a1",
                                  annOf "/d/a.TextGrid" 1 2 "a2"] }] } ∧
    (∀ tg : TextGrid, read_textgrid "/d/a.TextGrid" (some rawA) = some tg →
        ∀ t ∈ tg.tiers, t.parent = Option.none) ∧
    read_textgrid "/d/a.TextGrid" Option.none = Option.none := by
  refine ⟨rfl, ?_, rfl⟩
  intro tg htg t ht
  have : tg = { file_path := some "/d/a.TextGrid",
                parentSelf := true,
                tiers := [{ name := "word", index := some 0, parent := Option.none,
                            intervals := [annOf "/d/a.TextGrid" 0 1 "a1",
                                          annOf "/d/a.TextGrid" 1 2 "a2"] }] } := by
    have h0 : (some tg : Option TextGrid) = some
      { file_path := some "/d/a.TextGrid",
        parentSelf := true,
        tiers := [{ name := "word", index := some 0, parent := Option.none,
                    intervals := [annOf "/d/a.TextGrid" 0 1 "a1",
                                  annOf "/d/a.TextGrid" 1 2 "a2"] }] } := htg.symm.trans rfl
    exact Option.some_inj.mp h0
  subst this
  simp only [List.mem_singleton] at ht
  subst ht
  rfl

/-- A two-byte sequence not containing the newline byte begins the first
line exactly when it begins the whole file. -/
theorem prefixTwo_readline (a b : Nat) (ha : a ≠ 0x0a) :
    ∀ bs : Bytes, [a, b].isPrefixOf (readlineSplit bs).1 = [a, b].isPrefixOf bs
  | [] => rfl
  | [x] => by
      by_cases hx : x = 0x0a <;>
        simp [readlineSplit, hx, List.isPrefixOf]
  | x :: y :: rest => by
      by_cases hx : x = 0x0a
      · subst hx
        have hne : (a == 0x0a) = false := by
          simp [ha]
        simp [readlineSplit, List.isPrefixOf, hne]
      · by_cases hy : y = 0x0a <;>
          simp [readlineSplit, hx, hy, List.isPrefixOf]

/-- C4 counterexample: a file whose only line holds invalid UTF-8 bytes
and that has nothing after its newline.  The whole byte content is not
valid UTF-8 and there is no BOM, so the claim requires `latin_1`, but the
detector only validates the bytes AFTER the first line and returns
`utf-8`. -/
theorem C4_counterexample :
    detect_praat_encoding [0xc3, 0x28, 0x0a] = PraatEncoding.utf8 ∧
    isValidUtf8 [0xc3, 0x28, 0x0a] = false ∧
    [0xff, 0xfe].isPrefixOf [0xc3, 0x28, 0x0a] = false ∧
    [0xfe, 0xff].isPrefixOf [0xc3, 0x28, 0x0a] = false := by
  refine ⟨rfl, by decide, by decide, by decide⟩

/-- C4 as amended: `utf-16le` on a leading FF FE, `utf-16be` on a leading
FE FF, and with no BOM the detector returns `utf-8` exactly when the byte
content AFTER THE FIRST LINE is valid UTF-8, `latin_1` otherwise; the
function is total over the four tags. -/
theorem C4_detector_amended (bs : Bytes) :
    ([0xff, 0xfe].isPrefixOf bs = true →
        detect_praat_encoding bs = PraatEncoding.utf16le) ∧
    ([0xff, 0xfe].isPrefixOf bs = false → [0xfe, 0xff].isPrefixOf bs = true →
        detect_praat_encoding bs = PraatEncoding.utf16be) ∧
    ([0xff, 0xfe].isPrefixOf bs = false → [0xfe, 0xff].isPrefixOf bs = false →
        isValidUtf8 (readlineSplit bs).2 = true →
        detect_praat_encoding bs = PraatEncoding.utf8) ∧
    ([0xff, 0xfe].isPrefixOf bs = false → [0xfe, 0xff].isPrefixOf bs = false →
        isValidUtf8 (readlineSplit bs).2 = false →
        detect_praat_encoding bs = PraatEncoding.latin1) := by
  have h1 := prefixTwo_readline 0xff 0xfe (by decide) bs
  have h2 := prefixTwo_readline 0xfe 0xff (by decide) bs
  refine ⟨?_, ?_, ?_, ?_⟩
  · intro hff
    simp [detect_praat_encoding, h1.trans hff]
  · intro hff hfe
    simp [detect_praat_encoding, h1.trans hff, h2.trans hfe]
  · intro hff hfe hval
    simp [detect_praat_encoding, h1.trans hff, h2.trans hfe, hval]
  · intro hff hfe hval
    simp [detect_praat_encoding, h1.trans hff, h2.trans hfe, hval]

theorem keyMem_iff (m : AlignedData) (k : Key) :
    keyMem m k = true ↔ k ∈ mapKeys m := by
  simp [keyMem, mapKeys, List.any_eq_true, List.mem_map]

theorem keyMem_eq_false (m : AlignedData) (k : Key) (h : ¬ keyMem m k = true) :
    keyMem m k = false := by
  cases hkm : keyMem m k
  · rfl
  · exact absurd hkm h

/-- Inserting at a key that is already stored rewrites the stored row in
place: the key sequence of the map does not change. -/
theorem mapKeys_dictInsert_present (m : AlignedData) (k : Key) (v : Row)
    (h : keyMem m k = true) : mapKeys (dictInsert m k v) = mapKeys m := by
  unfold dictInsert
  rw [if_pos h]
  unfold mapKeys
  rw [List.map_map]
  apply List.map_congr_left
  intro e he
  by_cases hek : e.1 = k
  · simp [hek]
  · simp [hek]

/-- Inserting at a fresh key appends it. -/
theorem mapKeys_dictInsert_absent (m : AlignedData) (k : Key) (v : Row)
    (h : keyMem m k = false) : mapKeys (dictInsert m k v) = mapKeys m ++ [k] := by
  unfold dictInsert
  rw [if_neg (by simp [h])]
  simp [mapKeys]

theorem mem_mapKeys_dictInsert (m : AlignedData) (k k1 : Key) (v : Row) :
    k1 ∈ mapKeys (dictInsert m k v) ↔ (k1 ∈ mapKeys m ∨ k1 = k) := by
  by_cases h : keyMem m k = true
  · rw [mapKeys_dictInsert_present m k v h]
    have hk := (keyMem_iff m k).mp h
    constructor
    · exact Or.inl
    · rintro (h1 | rfl)
      · exact h1
      · exact hk
  · rw [mapKeys_dictInsert_absent m k v (keyMem_eq_false m k h), List.mem_append,
      List.mem_singleton]

theorem keyMem_dictInsert (m : AlignedData) (k k1 : Key) (v : Row) :
    keyMem (dictInsert m k v) k1 = (keyMem m k1 || decide (k1 = k)) := by
  rw [Bool.eq_iff_iff]
  simp [keyMem_iff, mem_mapKeys_dictInsert]

theorem mapKeys_dictSetSlot (m : AlignedData) (k : Key) (idx : Nat) (c : Cell) :
    mapKeys (dictSetSlot m k idx c) = mapKeys m := by
  unfold dictSetSlot mapKeys
  rw [List.map_map]
  apply List.map_congr_left
  intro e he
  by_cases hek : e.1 = k
  · simp [hek]
  · simp [hek]

theorem nodup_mapKeys_dictInsert (m : AlignedData) (k : Key) (v : Row)
    (h : (mapKeys m).Nodup) : (mapKeys (dictInsert m k v)).Nodup := by
  by_cases hk : keyMem m k = true
  · rw [mapKeys_dictInsert_present m k v hk]
    exact h
  · have hk' := keyMem_eq_false m k hk
    rw [mapKeys_dictInsert_absent m k v hk']
    have hnotin : k ∉ mapKeys m := fun hm => by
      rw [(keyMem_iff m k).mpr hm] at hk'
      simp at hk'
    simp [List.nodup_append, h, hnotin]

/-- Bool-level characterisation of which keys the primary loop stores. -/
theorem keyMem_insertPrimaryRows (path : FsPath) (n : Nat) :
    ∀ (ivs : List AnnInterval) (m : AlignedData) (k : Key),
      keyMem (insertPrimaryRows path n ivs m) k =
        (keyMem m k ||
          ivs.any (fun i => !blankText i.text && decide ((i.xmin, i.xmax) = k)))
  | [], m, k => by simp [insertPrimaryRows]
  | i :: ivs, m, k => by
      show keyMem (insertPrimaryRows path n ivs (primStep path n m i)) k = _
      rw [keyMem_insertPrimaryRows path n ivs (primStep path n m i) k]
      unfold primStep
      by_cases hb : blankText i.text = true
      · simp [hb]
      · have hb' : blankText i.text = false := by
          cases hbb : blankText i.text
          · rfl
          · exact absurd hbb hb
        rw [if_neg (by simp [hb'])]
        rw [keyMem_dictInsert]
        rw [Bool.eq_iff_iff]
        simp only [List.any_cons, Bool.or_eq_true, Bool.and_eq_true, Bool.not_eq_true',
          decide_eq_true_eq, hb', true_and]
        constructor
        · rintro ((h1 | h2) | h3)
          · exact Or.inl h1
          · exact Or.inr (Or.inl h2.symm)
          · exact Or.inr (Or.inr h3)
        · rintro (h1 | h2 | h3)
          · exact Or.inl (Or.inl h1)
          · exact Or.inl (Or.inr h2.symm)
          · exact Or.inr h3

theorem nodup_mapKeys_insertPrimaryRows (path : FsPath) (n : Nat) :
    ∀ (ivs : List AnnInterval) (m : AlignedData),
      (mapKeys m).Nodup → (mapKeys (insertPrimaryRows path n ivs m)).Nodup
  | [], _, h => h
  | i :: ivs, m, h => by
      show (mapKeys (insertPrimaryRows path n ivs (primStep path n m i))).Nodup
      apply nodup_mapKeys_insertPrimaryRows path n ivs
      unfold primStep
      by_cases hb : blankText i.text = true
      · rw [if_pos hb]
        exact h
      · rw [if_neg hb]
        exact nodup_mapKeys_dictInsert _ _ _ h

/-- A tier whose intervals all strip to empty inserts nothing. -/
theorem insertPrimaryRows_all_blank (path : FsPath) (n : Nat) :
    ∀ (ivs : List AnnInterval) (m : AlignedData),
      (∀ i ∈ ivs, blankText i.text = true) → insertPrimaryRows path n ivs m = m
  | [], _, _ => rfl
  | i :: ivs, m, h => by
      show insertPrimaryRows path n ivs (primStep path n m i) = m
      have hi := h i (List.mem_cons_self _ _)
      unfold primStep
      rw [if_pos hi]
      exact insertPrimaryRows_all_blank path n ivs m
        (fun j hj => h j (List.mem_cons_of_mem _ hj))

/-- C7: starting from an empty accumulation, the primary loop stores a key
exactly when some interval with that time span has text that does not
strip to empty; keys are stored at most once; and a tier of
whitespace-only intervals contributes nothing at all. -/
theorem C7_blank_interval_rows (path : FsPath) (n : Nat) (ivs : List AnnInterval)
    (k : Key) :
    (keyMem (insertPrimaryRows path n ivs []) k = true ↔
      ∃ i ∈ ivs, blankText i.text = false ∧ (i.xmin, i.xmax) = k) ∧
    (mapKeys (insertPrimaryRows path n ivs [])).Nodup ∧
    (∀ m, (∀ i ∈ ivs, blankText i.text = true) → insertPrimaryRows path n ivs m = m) := by
  refine ⟨?_, ?_, ?_⟩
  · rw [keyMem_insertPrimaryRows]
    simp [keyMem, List.any_eq_true]
  · exact nodup_mapKeys_insertPrimaryRows path n ivs [] List.nodup_nil
  · exact fun m => insertPrimaryRows_all_blank path n ivs m

theorem C7_blank_interval_rows_witness :
    (keyMem (insertPrimaryRows "/d/a.TextGrid" 2
        [annOf "/d/a.TextGrid" 0 1 "ok", annOf "/d/a.TextGrid" 1 2 "   "] []) (0, 1) = true ↔
      ∃ i ∈ [annOf "/d/a.TextGrid" 0 1 "ok", annOf "/d/a.TextGrid" 1 2 "   "],
        blankText i.text = false ∧ (i.xmin, i.xmax) = (0, 1)) ∧
    insertPrimaryRows "/d/a.TextGrid" 2 [annOf "/d/a.TextGrid" 1 2 "   "] [] = [] :=
  ⟨(C7_blank_interval_rows "/d/a.TextGrid" 2
      [annOf "/d/a.TextGrid" 0 1 "ok", annOf "/d/a.TextGrid" 1 2 "   "] (0, 1)).1,
   (C7_blank_interval_rows "/d/a.TextGrid" 2
      [annOf "/d/a.TextGrid" 1 2 "   "] (0, 1)).2.2 [] (by decide)⟩

/-- Overwriting a stored key touches no other entry and keeps the entry
in place. -/
theorem map_overwrite_id (m : AlignedData) (k : Key) (w : Row)
    (h : k ∉ mapKeys m) :
    m.map (fun e => if e.1 = k then (k, w) else e) = m := by
  conv_rhs => rw [← List.map_id m]
  apply List.map_congr_left
  intro e he
  have hek : e.1 ≠ k := fun hh => h (hh ▸ List.mem_map_of_mem (fun e => e.1) he)
  simp [hek]

theorem map_setslot_id (m : AlignedData) (k : Key) (idx : Nat) (c : Cell)
    (h : k ∉ mapKeys m) :
    m.map (fun e => if e.1 = k then (e.1, e.2.set idx c) else e) = m := by
  conv_rhs => rw [← List.map_id m]
  apply List.map_congr_left
  intro e he
  have hek : e.1 ≠ k := fun hh => h (hh ▸ List.mem_map_of_mem (fun e => e.1) he)
  simp [hek]

/-- Inserting a fresh key appends the new row. -/
theorem dictInsert_absent (m : AlignedData) (k : Key) (v : Row)
    (h : keyMem m k = false) :
    dictInsert m k v = m ++ [(k, v)] := by
  unfold dictInsert
  rw [if_neg (by simp [h])]

/-- Inserting an already-seen key silently replaces the stored row,
keeping its position. -/
theorem dictInsert_overwrite (m₁ m₂ : AlignedData) (k : Key) (v w : Row)
    (h₁ : k ∉ mapKeys m₁) (h₂ : k ∉ mapKeys m₂) :
    dictInsert (m₁ ++ (k, v) :: m₂) k w = m₁ ++ (k, w) :: m₂ := by
  have hmem : keyMem (m₁ ++ (k, v) :: m₂) k = true := by
    rw [keyMem_iff]
    simp [mapKeys]
  unfold dictInsert
  rw [if_pos hmem, List.map_append, List.map_cons]
  rw [map_overwrite_id m₁ k w h₁, map_overwrite_id m₂ k w h₂]
  simp

/-- A secondary hit on a stored key mutates exactly that row's slot. -/
theorem dictSetSlot_overwrite (m₁ m₂ : AlignedData) (k : Key) (r : Row)
    (idx : Nat) (c : Cell) (h₁ : k ∉ mapKeys m₁) (h₂ : k ∉ mapKeys m₂) :
    dictSetSlot (m₁ ++ (k, r) :: m₂) k idx c = m₁ ++ (k, r.set idx c) :: m₂ := by
  unfold dictSetSlot
  rw [List.map_append, List.map_cons]
  rw [map_setslot_id m₁ k idx c h₁, map_setslot_id m₂ k idx c h₂]
  simp

/-- On a valid root, the engine's rows are exactly the values of the one
accumulation map threaded through the whole traversal. -/
theorem create_rows_are_map_values (d : Dir) (p : String) (s : List String)
    (res : List String × List Row) (hdir : d.isDir = true) (habs : d.isAbsolute = true)
    (h : create_aligned_tier_table d p s = Except.ok res) :
    ∃ m, foldFiles p s ("filename" :: p :: s) d.files [] = Except.ok m ∧
      res = ("filename" :: p :: s, m.map (fun e => e.2)) := by
  unfold create_aligned_tier_table at h
  rw [if_neg (by simp [hdir, habs])] at h
  cases hf : foldFiles p s ("filename" :: p :: s) d.files [] with
  | error e =>
      rw [hf] at h
      exact absurd h (by simp [Except.map])
  | ok m =>
      rw [hf] at h
      refine ⟨m, rfl, ?_⟩
      simpa [Except.map] using h.symm

/-- C1: the accumulation map has Python-dict semantics over one keyspace
spanning the whole traversal — a re-inserted primary key silently
replaces the stored row in place, a secondary hit rewrites one slot of
the stored row, fresh keys append, the output rows are the map's values
in first-seen key order, and (concrete two-file run) rows from different
files share the single map, with last-writer-wins across files. -/
theorem C1_accumulation_map_semantics :
    (∀ (m : AlignedData) (k : Key) (v : Row),
        keyMem m k = false → dictInsert m k v = m ++ [(k, v)]) ∧
    (∀ (m₁ m₂ : AlignedData) (k : Key) (v w : Row),
        k ∉ mapKeys m₁ → k ∉ mapKeys m₂ →
        dictInsert (m₁ ++ (k, v) :: m₂) k w = m₁ ++ (k, w) :: m₂) ∧
    (∀ (m₁ m₂ : AlignedData) (k : Key) (r : Row) (idx : Nat) (c : Cell),
        k ∉ mapKeys m₁ → k ∉ mapKeys m₂ →
        dictSetSlot (m₁ ++ (k, r) :: m₂) k idx c = m₁ ++ (k, r.set idx c) :: m₂) ∧
    (∀ (d : Dir) (p : String) (s : List String) (res : List String × List Row),
        d.isDir = true → d.isAbsolute = true →
        create_aligned_tier_table d p s = Except.ok res →
        ∃ m, foldFiles p s ("filename" :: p :: s) d.files [] = Except.ok m ∧
          res = ("filename" :: p :: s, m.map (fun e => e.2))) ∧
    create_aligned_tier_table dirAB "word" [] = Except.ok (["filename", "word"],
      [[Cell.path "/d/b.TextGrid", Cell.interval (annOf "/d/b.TextGrid" 0 1 "b2")],
       [Cell.path "/d/a.TextGrid", Cell.interval (annOf "/d/a.TextGrid" 1 2 "a2")],
       [Cell.path "/d/b.TextGrid", Cell.interval (annOf "/d/b.TextGrid" 2 3 "b1")]]) :=
  ⟨dictInsert_absent, dictInsert_overwrite, dictSetSlot_overwrite,
   fun d p s res => create_rows_are_map_values d p s res, rfl⟩

theorem C1_accumulation_map_semantics_witness :
    dictInsert [] ((0 : Time), (1 : Time)) [Cell.none] = [(((0 : Time), (1 : Time)), [Cell.none])] ∧
    dictInsert [(((0 : Time), (1 : Time)), [Cell.none])] ((0 : Time), (1 : Time))
        [Cell.path "/d/b.TextGrid"] =
      [(((0 : Time), (1 : Time)), [Cell.path "/d/b.TextGrid"])] ∧
    dictSetSlot [(((0 : Time), (1 : Time)), [Cell.none, Cell.none])] ((0 : Time), (1 : Time)) 1
        (Cell.path "/d/b.TextGrid") =
      [(((0 : Time), (1 : Time)), [Cell.none, Cell.path "/d/b.TextGrid"])] ∧
    (∃ m, foldFiles "word" [] ["filename", "word"] dirAB.files [] = Except.ok m ∧
      (["filename", "word"],
        [[Cell.path "/d/b.TextGrid", Cell.interval (annOf "/d/b.TextGrid" 0 1 "b2")],
         [Cell.path "/d/a.TextGrid", Cell.interval (annOf "/d/a.TextGrid" 1 2 "a2")],
         [Cell.path "/d/b.TextGrid", Cell.interval (annOf "/d/b.TextGrid" 2 3 "b1")]]) =
        ("filename" :: "word" :: [], m.map (fun e => e.2))) :=
  ⟨C1_accumulation_map_semantics.1 _ _ _ (by decide),
   C1_accumulation_map_semantics.2.1 [] [] _ _ _ (by decide) (by decide),
   C1_accumulation_map_semantics.2.2.1 [] [] _ _ _ _ (by decide) (by decide),
   C1_accumulation_map_semantics.2.2.2.1 dirAB "word" [] _ rfl rfl
     C1_accumulation_map_semantics.2.2.2.2⟩

theorem set_getElem?_map (r : Row) (i n : Nat) (a : Cell) :
    (r.set i a)[n]? = if i = n then (r[n]?).map (fun _ => a) else r[n]? := by
  rw [List.getElem?_set]
  by_cases h : i = n
  · subst h
    by_cases hl : i < r.length
    · simp [hl, List.getElem?_eq_getElem hl]
    · have hnone : r[i]? = Option.none := by
        rw [List.getElem?_eq_none]
        omega
      simp [hl, hnone]
  · simp [h]

/-- Slot `n` after a write sequence holds the sequence's last write to
`n` (when the slot exists), otherwise the original content. -/
theorem applyWrites_getElem? :
    ∀ (ws : List (Nat × Cell)) (r : Row) (n : Nat),
      (applyWrites r ws)[n]? =
        match lastWrite ws n with
        | some c => (r[n]?).map (fun _ => c)
        | Option.none => r[n]?
  | [], r, n => rfl
  | w :: ws, r, n => by
      show (applyWrites (r.set w.1 w.2) ws)[n]? = _
      rw [applyWrites_getElem? ws (r.set w.1 w.2) n]
      cases hlw : lastWrite ws n with
      | some c =>
          rw [set_getElem?_map]
          simp only [lastWrite, hlw]
          by_cases hw : w.1 = n
          · rw [if_pos hw, Option.map_map]
            rfl
          · rw [if_neg hw]
      | none =>
          rw [set_getElem?_map]
          simp only [lastWrite, hlw]
          by_cases hw : w.1 = n
          · rw [if_pos hw]
            simp [hw]
          · rw [if_neg hw]
            simp [hw]

/-- Replaying the same write sequence is a no-op. -/
theorem applyWrites_idem (r : Row) (ws : List (Nat × Cell)) :
    applyWrites (applyWrites r ws) ws = applyWrites r ws := by
  apply List.ext_getElem?
  intro n
  rw [applyWrites_getElem?, applyWrites_getElem?]
  cases hlw : lastWrite ws n
  · simp [hlw]
  · simp only [hlw, Option.map_map]
    rfl

theorem applyWrites_append (r : Row) (ws1 ws2 : List (Nat × Cell)) :
    applyWrites r (ws1 ++ ws2) = applyWrites (applyWrites r ws1) ws2 :=
  List.foldl_append _ _ _ _

/-- One secondary tier acts on the accumulation map entrywise: every
stored row receives exactly the writes aimed at its own key. -/
theorem alignTier_pointwise (h : List String) (name : String) :
    ∀ (ivs : List AnnInterval) (m : AlignedData),
      alignTierIntervals h name ivs m =
        m.map (fun e => (e.1, applyWrites e.2 (rowWrites h name e.1 ivs)))
  | [], m => by
      simp [alignTierIntervals, rowWrites, applyWrites]
  | i :: ivs, m => by
      show alignTierIntervals h name ivs (alignStep h name m i) = _
      rw [alignTier_pointwise h name ivs (alignStep h name m i)]
      unfold alignStep
      by_cases hk : keyMem m (i.xmin, i.xmax) = true
      · cases hfi : firstIdx h name with
        | none =>
            rw [if_pos hk]
            simp only [hfi]
            apply List.map_congr_left
            intro e he
            have hrw : rowWrites h name e.1 (i :: ivs) = rowWrites h name e.1 ivs := by
              unfold rowWrites
              rw [List.filterMap_cons]
              by_cases hek : (i.xmin, i.xmax) = e.1 <;> simp [hek, hfi, rowWrites]
            rw [hrw]
        | some idx =>
            rw [if_pos hk]
            simp only [hfi]
            unfold dictSetSlot
            rw [List.map_map]
            apply List.map_congr_left
            intro e he
            by_cases hek : e.1 = (i.xmin, i.xmax)
            · have hrw : rowWrites h name e.1 (i :: ivs) =
                  (idx, Cell.interval i) :: rowWrites h name e.1 ivs := by
                unfold rowWrites
                rw [List.filterMap_cons]
                simp [hek.symm, hfi, rowWrites]
              simp only [Function.comp_apply, if_pos hek, hrw]
              rfl
            · have hrw : rowWrites h name e.1 (i :: ivs) = rowWrites h name e.1 ivs := by
                unfold rowWrites
                rw [List.filterMap_cons]
                have : (i.xmin, i.xmax) ≠ e.1 := fun hh => hek hh.symm
                simp [this, rowWrites]
              simp only [Function.comp_apply, if_neg hek, hrw]
      · rw [if_neg hk]
        apply List.map_congr_left
        intro e he
        have hne : (i.xmin, i.xmax) ≠ e.1 := by
          intro hh
          exact hk ((keyMem_iff m (i.xmin, i.xmax)).mpr
            (hh ▸ List.mem_map_of_mem (fun e => e.1) he))
        have hrw : rowWrites h name e.1 (i :: ivs) = rowWrites h name e.1 ivs := by
          unfold rowWrites
          rw [List.filterMap_cons]
          simp [hne, rowWrites]
        rw [hrw]

/-- The whole secondary pass acts on the map entrywise. -/
theorem secPass_pointwise (h s : List String) (j : Nat) :
    ∀ (l : List (Nat × AnnTier)) (m : AlignedData),
      secPass h s j l m =
        m.map (fun e => (e.1, applyWrites e.2 (secWrites h s j e.1 l)))
  | [], m => by
      simp [secPass, secWrites, applyWrites]
  | jt :: l, m => by
      show secPass h s j l
        (if jt.1 = j then m
         else if s.contains jt.2.name then
           alignTierIntervals h jt.2.name jt.2.intervals m
         else m) = _
      by_cases h1 : jt.1 = j
      · rw [if_pos h1]
        rw [secPass_pointwise h s j l m]
        apply List.map_congr_left
        intro e he
        rw [show secWrites h s j e.1 (jt :: l) = secWrites h s j e.1 l by
          show (if jt.1 = j then []
              else if s.contains jt.2.name then
                rowWrites h jt.2.name e.1 jt.2.intervals
              else []) ++ secWrites h s j e.1 l = _
          rw [if_pos h1]
          rfl]
      · by_cases h2 : s.contains jt.2.name
        · rw [if_neg h1, if_pos h2]
          rw [secPass_pointwise h s j l _,
            alignTier_pointwise h jt.2.name jt.2.intervals m, List.map_map]
          apply List.map_congr_left
          intro e he
          simp only [Function.comp_apply]
          rw [show secWrites h s j e.1 (jt :: l) =
              rowWrites h jt.2.name e.1 jt.2.intervals ++ secWrites h s j e.1 l by
            show (if jt.1 = j then []
                else if s.contains jt.2.name then
                  rowWrites h jt.2.name e.1 jt.2.intervals
                else []) ++ secWrites h s j e.1 l = _
            rw [if_neg h1, if_pos h2]]
          rw [applyWrites_append]
        · rw [if_neg h1, if_neg h2]
          rw [secPass_pointwise h s j l m]
          apply List.map_congr_left
          intro e he
          rw [show secWrites h s j e.1 (jt :: l) = secWrites h s j e.1 l by
            show (if jt.1 = j then []
                else if s.contains jt.2.name then
                  rowWrites h jt.2.name e.1 jt.2.intervals
                else []) ++ secWrites h s j e.1 l = _
            rw [if_neg h1, if_neg h2]
            rfl]

/-- A key-preserving entrywise map does not change which keys are
stored. -/
theorem keyMem_map_fst (m : AlignedData) (f : Key × Row → Key × Row)
    (hf : ∀ e, (f e).1 = e.1) (k : Key) :
    keyMem (m.map f) k = keyMem m k := by
  unfold keyMem
  rw [List.any_map, Bool.eq_iff_iff, List.any_eq_true, List.any_eq_true]
  constructor
  · rintro ⟨x, hx, hpx⟩
    refine ⟨x, hx, ?_⟩
    simp only [Function.comp_apply, decide_eq_true_eq] at hpx
    rw [hf x] at hpx
    simpa using hpx
  · rintro ⟨x, hx, hpx⟩
    refine ⟨x, hx, ?_⟩
    simp only [decide_eq_true_eq] at hpx
    simp only [Function.comp_apply, decide_eq_true_eq]
    rw [hf x]
    exact hpx

/-- `mapKeys` form of the in-place overwrite performed by `dictInsert`
on a present key. -/
theorem mapKeys_overwrite (m : AlignedData) (k : Key) (v : Row) :
    mapKeys (m.map (fun e => if e.1 = k then (k, v) else e)) = mapKeys m := by
  unfold mapKeys
  rw [List.map_map]
  apply List.map_congr_left
  intro e he
  by_cases hek : e.1 = k
  · simp [hek]
  · simp [hek]

theorem keyMem_overwrite (m : AlignedData) (k k1 : Key) (v : Row) :
    keyMem (m.map (fun e => if e.1 = k then (k, v) else e)) k1 = keyMem m k1 := by
  rw [Bool.eq_iff_iff, keyMem_iff, keyMem_iff, mapKeys_overwrite]

/-- When every non-blank primary key is already stored, the primary loop
acts on the map entrywise: each stored row is either replaced by the
fresh row of the last matching non-blank interval or untouched. -/
theorem insertPrimaryRows_pointwise (path : FsPath) (n : Nat) :
    ∀ (ivs : List AnnInterval) (m : AlignedData),
      (∀ i ∈ ivs, blankText i.text = false → keyMem m (i.xmin, i.xmax) = true) →
      insertPrimaryRows path n ivs m =
        m.map (fun e => (e.1, primApplyRow path n ivs e.1 e.2))
  | [], m, _ => by
      simp [insertPrimaryRows, primApplyRow, lastPrimaryHit]
  | i :: ivs, m, hkeys => by
      show insertPrimaryRows path n ivs (primStep path n m i) = _
      by_cases hb : blankText i.text = true
      · unfold primStep
        rw [if_pos hb]
        rw [insertPrimaryRows_pointwise path n ivs m
          (fun i2 hi2 => hkeys i2 (List.mem_cons_of_mem _ hi2))]
        apply List.map_congr_left
        intro e he
        cases hlp : lastPrimaryHit e.1 ivs <;>
          simp [primApplyRow, lastPrimaryHit, hlp, hb]
      · have hb2 : blankText i.text = false := by
          cases hbb : blankText i.text
          · rfl
          · exact absurd hbb hb
        have hkm : keyMem m (i.xmin, i.xmax) = true :=
          hkeys i (List.mem_cons_self _ _) hb2
        unfold primStep
        rw [if_neg (by simp [hb2])]
        unfold dictInsert
        rw [if_pos hkm]
        rw [insertPrimaryRows_pointwise path n ivs _
          (fun i2 hi2 hbi2 => by
            rw [keyMem_overwrite]
            exact hkeys i2 (List.mem_cons_of_mem _ hi2) hbi2)]
        rw [List.map_map]
        apply List.map_congr_left
        intro e he
        by_cases hek : e.1 = (i.xmin, i.xmax)
        · simp only [Function.comp_apply, if_pos hek]
          rw [hek]
          cases hlp : lastPrimaryHit (i.xmin, i.xmax) ivs with
          | some i0 =>
              simp [primApplyRow, lastPrimaryHit, hlp]
          | none =>
              simp [primApplyRow, lastPrimaryHit, hlp, hb2]
        · simp only [Function.comp_apply, if_neg hek]
          cases hlp : lastPrimaryHit e.1 ivs with
          | some i0 =>
              simp [primApplyRow, lastPrimaryHit, hlp]
          | none =>
              have hne : ¬ ((i.xmin, i.xmax) = e.1) := fun hh => hek hh.symm
              simp [primApplyRow, lastPrimaryHit, hlp, hne]

/-- The row stored under the key just inserted is the inserted row. -/
theorem mem_dictInsert_self (m : AlignedData) (k : Key) (v r : Row)
    (hm : (k, r) ∈ dictInsert m k v) : r = v := by
  unfold dictInsert at hm
  by_cases hk : keyMem m k = true
  · rw [if_pos hk] at hm
    obtain ⟨e, he, hfe⟩ := List.mem_map.mp hm
    by_cases hek : e.1 = k
    · rw [if_pos hek] at hfe
      injection hfe with h1 h2
      exact h2.symm
    · rw [if_neg hek] at hfe
      exact absurd (by rw [hfe]) hek
  · rw [if_neg hk] at hm
    rcases List.mem_append.mp hm with h1 | h2
    · exact absurd ((keyMem_iff m k).mpr (List.mem_map_of_mem (fun e => e.1) h1)) hk
    · rw [List.mem_singleton] at h2
      exact congrArg Prod.snd h2

/-- Inserting at one key leaves the rows stored under other keys in
place. -/
theorem mem_dictInsert_ne (m : AlignedData) (k : Key) (v : Row) (k1 : Key) (r : Row)
    (hne : k1 ≠ k) (hm : (k1, r) ∈ dictInsert m k v) : (k1, r) ∈ m := by
  unfold dictInsert at hm
  by_cases hk : keyMem m k = true
  · rw [if_pos hk] at hm
    obtain ⟨e, he, hfe⟩ := List.mem_map.mp hm
    by_cases hek : e.1 = k
    · rw [if_pos hek] at hfe
      injection hfe with h1 h2
      exact absurd h1.symm hne
    · rw [if_neg hek] at hfe
      exact hfe ▸ he
  · rw [if_neg hk] at hm
    rcases List.mem_append.mp hm with h1 | h2
    · exact h1
    · rw [List.mem_singleton] at h2
      injection h2 with h3 h4
      exact absurd h3 hne

/-- A key no non-blank primary interval hits keeps its stored row across
the primary loop. -/
theorem mem_insertPrimaryRows_no_hit (path : FsPath) (n : Nat) :
    ∀ (ivs : List AnnInterval) (m : AlignedData) (k : Key) (r : Row),
      lastPrimaryHit k ivs = Option.none →
      (k, r) ∈ insertPrimaryRows path n ivs m → (k, r) ∈ m
  | [], _, _, _, _, hm => hm
  | i :: ivs, m, k, r, hlp, hm => by
      have hrec : lastPrimaryHit k ivs = Option.none := by
        cases hl : lastPrimaryHit k ivs
        · rfl
        · simp [lastPrimaryHit, hl] at hlp
      have hm2 := mem_insertPrimaryRows_no_hit path n ivs (primStep path n m i) k r hrec hm
      unfold primStep at hm2
      by_cases hb : blankText i.text = true
      · rw [if_pos hb] at hm2
        exact hm2
      · have hb2 : blankText i.text = false := by
          cases hbb : blankText i.text
          · rfl
          · exact absurd hbb hb
        rw [if_neg (by simp [hb2])] at hm2
        have hne : (i.xmin, i.xmax) ≠ k := by
          intro hkey
          simp [lastPrimaryHit, hrec, hb2, hkey] at hlp
        exact mem_dictInsert_ne m (i.xmin, i.xmax) _ k r (fun hh => hne hh.symm) hm2

/-- Any row of the accumulation stored under a key that some non-blank
primary interval hits is the fresh row of the last such interval. -/
theorem mem_insertPrimaryRows_value (path : FsPath) (n : Nat) :
    ∀ (ivs : List AnnInterval) (m : AlignedData) (k : Key) (r : Row) (i0 : AnnInterval),
      lastPrimaryHit k ivs = some i0 →
      (k, r) ∈ insertPrimaryRows path n ivs m → r = freshRow n path i0
  | [], _, _, _, _, hlp, _ => by simp [lastPrimaryHit] at hlp
  | i :: ivs, m, k, r, i0, hlp, hm => by
      cases hl : lastPrimaryHit k ivs with
      | some i1 =>
          have hi : i1 = i0 := by
            simp [lastPrimaryHit, hl] at hlp
            exact hlp
          exact hi ▸ mem_insertPrimaryRows_value path n ivs (primStep path n m i) k r i1 hl hm
      | none =>
          have hguard : blankText i.text = false ∧ (i.xmin, i.xmax) = k := by
            by_contra hng
            simp [lastPrimaryHit, hl, hng] at hlp
          have hi0 : i = i0 := by
            simp [lastPrimaryHit, hl, hguard.1, hguard.2] at hlp
            exact hlp
          have hm2 := mem_insertPrimaryRows_no_hit path n ivs (primStep path n m i) k r hl hm
          unfold primStep at hm2
          rw [if_neg (by simp [hguard.1])] at hm2
          rw [hguard.2] at hm2
          exact hi0 ▸ mem_dictInsert_self m k _ r hm2

/-- One run of the per-document body absorbs a second run: the body is
idempotent on the accumulation map. -/
theorem processDocBody_idem (p : String) (s h : List String) (path : FsPath)
    (tiers : List AnnTier) (m : AlignedData) :
    processDocBody p s h path tiers (processDocBody p s h path tiers m) =
      processDocBody p s h path tiers m := by
  unfold processDocBody
  cases hfp : findPrimary p tiers with
  | none => rfl
  | some jt =>
      obtain ⟨j, pt⟩ := jt
      simp only [alignSecondaries]
      rw [secPass_pointwise h s j tiers.enum
        (insertPrimaryRows path h.length pt.intervals m)]
      rw [insertPrimaryRows_pointwise path h.length pt.intervals _
        (fun i2 hi2 hbi2 => by
          rw [keyMem_map_fst (insertPrimaryRows path h.length pt.intervals m)
            (fun e => (e.1, applyWrites e.2 (secWrites h s j e.1 tiers.enum)))
            (fun e => rfl)]
          rw [keyMem_insertPrimaryRows]
          have : pt.intervals.any
              (fun i => !blankText i.text &&
                decide ((i.xmin, i.xmax) = (i2.xmin, i2.xmax))) = true := by
            rw [List.any_eq_true]
            exact ⟨i2, hi2, by simp [hbi2]⟩
          rw [this, Bool.or_true])]
      rw [secPass_pointwise h s j tiers.enum _, List.map_map, List.map_map]
      apply List.map_congr_left
      intro e he
      simp only [Function.comp_apply]
      cases hlp : lastPrimaryHit e.1 pt.intervals with
      | none =>
          simp only [primApplyRow, hlp]
          rw [applyWrites_idem]
      | some i0 =>
          simp only [primApplyRow, hlp]
          have hval : e.2 = freshRow h.length path i0 :=
            mem_insertPrimaryRows_value path h.length pt.intervals m e.1 e.2 i0 hlp
              (by
                have he2 : (e.1, e.2) ∈ insertPrimaryRows path h.length pt.intervals m := by
                  rw [Prod.mk.eta]
                  exact he
                exact he2)
          rw [hval]

/-- Folding an idempotent step over any list collapses to one
application. -/
theorem foldl_const_apply {α β : Type} (g : β → β) (hg : ∀ x, g (g x) = g x) :
    ∀ (l : List α) (x : β), l.foldl (fun a _ => g a) (g x) = g x
  | [], _ => rfl
  | _ :: l, x => by
      show l.foldl (fun a _ => g a) (g (g x)) = g x
      rw [hg x]
      exact foldl_const_apply g hg l x

/-- Re-entering the per-document body once per tier of the document gives
the same accumulation as entering it exactly once. -/
theorem processDoc_eq_body (p : String) (s h : List String) (path : FsPath)
    (tiers : List AnnTier) (m : AlignedData) :
    processDoc p s h path tiers m = processDocBody p s h path tiers m := by
  unfold processDoc
  cases tiers with
  | nil => simp [processDocBody, findPrimary, findPrimaryAux]
  | cons t ts =>
      rw [List.foldl_cons]
      exact foldl_const_apply (processDocBody p s h path (t :: ts))
        (processDocBody_idem p s h path (t :: ts)) ts m

theorem foldFiles_eq_once (p : String) (s h : List String) :
    ∀ (files : List (FsPath × Option RawTextGrid)) (m : AlignedData),
      foldFiles p s h files m = foldFilesOnce p s h files m
  | [], _ => rfl
  | pf :: fs, m => by
      cases htg : read_textgrid pf.1 pf.2 with
      | none => simp only [foldFiles, foldFilesOnce, htg]
      | some tg =>
          simp only [foldFiles, foldFilesOnce, htg]
          rw [processDoc_eq_body]
          exact foldFiles_eq_once p s h fs _

/-- The position/tier pair `findPrimary` returns is the first tier of the
document carrying the primary name. -/
theorem findPrimaryAux_spec (p : String) :
    ∀ (tiers : List AnnTier) (base j : Nat) (t : AnnTier),
      findPrimaryAux p base tiers = some (j, t) →
      ∃ off, j = base + off ∧ tiers[off]? = some t ∧ t.name = p ∧
        ∀ off2 < off, ∀ t2, tiers[off2]? = some t2 → t2.name ≠ p
  | [], base, j, t, hf => by simp [findPrimaryAux] at hf
  | t0 :: ts, base, j, t, hf => by
      by_cases h0 : t0.name = p
      · refine ⟨0, ?_, ?_, ?_, ?_⟩
        · have : (base, t0) = (j, t) := by
            simpa [findPrimaryAux, h0] using hf
          injection this with h1 h2
          omega
        · have : (base, t0) = (j, t) := by
            simpa [findPrimaryAux, h0] using hf
          injection this with h1 h2
          simp [h2]
        · have : (base, t0) = (j, t) := by
            simpa [findPrimaryAux, h0] using hf
          injection this with h1 h2
          rw [← h2]
          exact h0
        · intro off2 hoff2
          omega
      · have hf2 : findPrimaryAux p (base + 1) ts = some (j, t) := by
          simpa [findPrimaryAux, h0] using hf
        obtain ⟨off, hoff, hget, hname, hfirst⟩ :=
          findPrimaryAux_spec p ts (base + 1) j t hf2
        refine ⟨off + 1, by omega, by simpa using hget, hname, ?_⟩
        intro off2 hoff2 t2 hget2
        cases off2 with
        | zero =>
            simp at hget2
            rw [← hget2]
            exact h0
        | succ o2 =>
            have : o2 < off := by omega
            exact hfirst o2 this t2 (by simpa using hget2)

/-- C5: the table the source computes (body re-entered once per tier of
the document) is identical to the table computed by matching the primary
tier name once per document and aligning secondaries once; and the tier
that supplies primary intervals is the first name match in document
iteration order. -/
theorem C5_replicated_body_refinement :
    (∀ (d : Dir) (p : String) (s : List String),
        create_aligned_tier_table d p s = create_aligned_tier_table_once d p s) ∧
    (∀ (p : String) (tiers : List AnnTier) (j : Nat) (t : AnnTier),
        findPrimary p tiers = some (j, t) →
        tiers[j]? = some t ∧ t.name = p ∧
          ∀ j2 < j, ∀ t2, tiers[j2]? = some t2 → t2.name ≠ p) := by
  constructor
  · intro d p s
    unfold create_aligned_tier_table create_aligned_tier_table_once
    rw [foldFiles_eq_once]
  · intro p tiers j t hf
    obtain ⟨off, hoff, hget, hname, hfirst⟩ := findPrimaryAux_spec p tiers 0 j t hf
    have hj : j = off := by omega
    subst hj
    exact ⟨hget, hname, fun j2 hj2 t2 hget2 => hfirst j2 hj2 t2 hget2⟩

theorem C5_replicated_body_refinement_witness :
    create_aligned_tier_table dirDup "word" ["word"] =
      create_aligned_tier_table_once dirDup "word" ["word"] ∧
    ((annotateTier "/d/dup.TextGrid" 0 ⟨"word", [⟨0, 1, "cat"⟩]⟩) ::
        [annotateTier "/d/dup.TextGrid" 1 ⟨"word", [⟨0, 1, "dog"⟩]⟩])[0]? =
      some (annotateTier "/d/dup.TextGrid" 0 ⟨"word", [⟨0, 1, "cat"⟩]⟩) ∧
    (annotateTier "/d/dup.TextGrid" 0 ⟨"word", [⟨0, 1, "cat"⟩]⟩).name = "word" ∧
    ∀ j2 < 0, ∀ t2 : AnnTier,
      ((annotateTier "/d/dup.TextGrid" 0 ⟨"word", [⟨0, 1, "cat"⟩]⟩) ::
        [annotateTier "/d/dup.TextGrid" 1 ⟨"word", [⟨0, 1, "dog"⟩]⟩])[j2]? = some t2 →
      t2.name ≠ "word" :=
  ⟨C5_replicated_body_refinement.1 dirDup "word" ["word"],
   C5_replicated_body_refinement.2 "word" _ 0
     (annotateTier "/d/dup.TextGrid" 0 ⟨"word", [⟨0, 1, "cat"⟩]⟩) rfl⟩

/-- `firstIdx` (Python `headers.index`) returns the FIRST position
carrying the name. -/
theorem firstIdx_spec :
    ∀ (hs : List String) (name : String) (i : Nat),
      firstIdx hs name = some i →
      hs[i]? = some name ∧ ∀ j < i, hs[j]? ≠ some name
  | [], name, i, hf => by simp [firstIdx] at hf
  | h :: t, name, i, hf => by
      by_cases hh : h = name
      · have hi : i = 0 := by
          simp [firstIdx, hh] at hf
          omega
        subst hi
        exact ⟨by simp [hh], fun j hj => by omega⟩
      · have hf2 : ∃ i2, firstIdx t name = some i2 ∧ i = i2 + 1 := by
          simp only [firstIdx, if_neg hh] at hf
          cases hfi : firstIdx t name with
          | none => rw [hfi] at hf; simp at hf
          | some i2 =>
              rw [hfi] at hf
              simp at hf
              exact ⟨i2, rfl, hf.symm⟩
        obtain ⟨i2, hfi2, hi⟩ := hf2
        obtain ⟨hget, hfirst⟩ := firstIdx_spec t name i2 hfi2
        subst hi
        refine ⟨by simpa using hget, ?_⟩
        intro j hj
        cases j with
        | zero => simpa using hh
        | succ j2 =>
            have : j2 < i2 := by omega
            simpa using hfirst j2 this

/-- With a primary name distinct from the filename header, a secondary
tier sharing the primary name resolves to column 1, the primary slot. -/
theorem firstIdx_primary_slot (p : String) (s : List String)
    (hp : p ≠ "filename") :
    firstIdx ("filename" :: p :: s) p = some 1 := by
  have hne : ¬ ("filename" = p) := fun hh => hp hh.symm
  simp [firstIdx, hne]

theorem dupCol_lt_length (headers : List String) (c : Nat) (hd : dupCol headers c) :
    c < headers.length := by
  obtain ⟨name, cPrev, hc, _, _⟩ := hd
  by_contra hlt
  rw [show headers[c]? = Option.none from List.getElem?_eq_none (by omega)] at hc
  exact Option.noConfusion hc

/-- The fresh row built for a primary interval satisfies the duplicate
column invariant. -/
theorem goodRow_freshRow (headers : List String) (path : FsPath) (i : AnnInterval) :
    goodRow headers (freshRow headers.length path i) := by
  constructor
  · simp [freshRow]
  · intro c hc hd
    have hlen : c < headers.length := dupCol_lt_length headers c hd
    unfold freshRow
    rw [List.getElem?_set_ne (by omega), List.getElem?_set_ne (by omega),
      List.getElem?_replicate]
    simp [hlen]

/-- Writing through `firstIdx` never touches a duplicate column. -/
theorem goodRow_set_firstIdx (headers : List String) (r : Row) (name : String)
    (idx : Nat) (c : Cell) (hgr : goodRow headers r)
    (hfi : firstIdx headers name = some idx) :
    goodRow headers (r.set idx c) := by
  obtain ⟨hget, hfirst⟩ := firstIdx_spec headers name idx hfi
  constructor
  · rw [List.length_set]
    exact hgr.1
  · intro c2 hc2 hd
    have hne : idx ≠ c2 := by
      intro hh
      subst hh
      obtain ⟨name2, cPrev, hcn, hlt, hcp⟩ := hd
      rw [hget] at hcn
      injection hcn with hnn
      rw [← hnn] at hcp
      exact hfirst cPrev hlt hcp
    rw [List.getElem?_set_ne hne]
    exact hgr.2 c2 hc2 hd

theorem goodMap_dictInsert (headers : List String) (m : AlignedData) (k : Key)
    (v : Row) (hm : goodMap headers m) (hv : goodRow headers v) :
    goodMap headers (dictInsert m k v) := by
  intro e he
  unfold dictInsert at he
  by_cases hk : keyMem m k = true
  · rw [if_pos hk] at he
    obtain ⟨e2, he2, hfe⟩ := List.mem_map.mp he
    by_cases hek : e2.1 = k
    · rw [if_pos hek] at hfe
      rw [← hfe]
      exact hv
    · rw [if_neg hek] at hfe
      rw [← hfe]
      exact hm e2 he2
  · rw [if_neg hk] at he
    rcases List.mem_append.mp he with h1 | h2
    · exact hm e h1
    · rw [List.mem_singleton] at h2
      rw [h2]
      exact hv

theorem goodMap_dictSetSlot (headers : List String) (m : AlignedData) (k : Key)
    (name : String) (idx : Nat) (c : Cell) (hm : goodMap headers m)
    (hfi : firstIdx headers name = some idx) :
    goodMap headers (dictSetSlot m k idx c) := by
  intro e he
  unfold dictSetSlot at he
  obtain ⟨e2, he2, hfe⟩ := List.mem_map.mp he
  by_cases hek : e2.1 = k
  · rw [if_pos hek] at hfe
    rw [← hfe]
    exact goodRow_set_firstIdx headers e2.2 name idx c (hm e2 he2) hfi
  · rw [if_neg hek] at hfe
    rw [← hfe]
    exact hm e2 he2

theorem goodMap_insertPrimaryRows (headers : List String) (path : FsPath) :
    ∀ (ivs : List AnnInterval) (m : AlignedData),
      goodMap headers m →
      goodMap headers (insertPrimaryRows path headers.length ivs m)
  | [], _, hm => hm
  | i :: ivs, m, hm => by
      show goodMap headers (insertPrimaryRows path headers.length ivs
        (primStep path headers.length m i))
      apply goodMap_insertPrimaryRows headers path ivs
      unfold primStep
      by_cases hb : blankText i.text = true
      · rw [if_pos hb]
        exact hm
      · rw [if_neg hb]
        exact goodMap_dictInsert headers m _ _ hm (goodRow_freshRow headers path i)

theorem goodMap_alignTier (headers : List String) (name : String) :
    ∀ (ivs : List AnnInterval) (m : AlignedData),
      goodMap headers m →
      goodMap headers (alignTierIntervals headers name ivs m)
  | [], _, hm => hm
  | i :: ivs, m, hm => by
      show goodMap headers (alignTierIntervals headers name ivs
        (alignStep headers name m i))
      apply goodMap_alignTier headers name ivs
      unfold alignStep
      by_cases hk : keyMem m (i.xmin, i.xmax) = true
      · rw [if_pos hk]
        cases hfi : firstIdx headers name with
        | none => exact hm
        | some idx =>
            exact goodMap_dictSetSlot headers m _ name idx _ hm hfi
      · rw [if_neg hk]
        exact hm

theorem goodMap_secPass (headers s : List String) (j : Nat) :
    ∀ (l : List (Nat × AnnTier)) (m : AlignedData),
      goodMap headers m → goodMap headers (secPass headers s j l m)
  | [], _, hm => hm
  | jt :: l, m, hm => by
      show goodMap headers (secPass headers s j l
        (if jt.1 = j then m
         else if s.contains jt.2.name then
           alignTierIntervals headers jt.2.name jt.2.intervals m
         else m))
      apply goodMap_secPass headers s j l
      by_cases h1 : jt.1 = j
      · rw [if_pos h1]
        exact hm
      · rw [if_neg h1]
        by_cases h2 : s.contains jt.2.name
        · rw [if_pos h2]
          exact goodMap_alignTier headers jt.2.name jt.2.intervals m hm
        · rw [if_neg h2]
          exact hm

theorem goodMap_processDocBody (p : String) (s headers : List String)
    (path : FsPath) (tiers : List AnnTier) (m : AlignedData)
    (hm : goodMap headers m) :
    goodMap headers (processDocBody p s headers path tiers m) := by
  unfold processDocBody
  cases findPrimary p tiers with
  | none => exact hm
  | some jt =>
      exact goodMap_secPass headers s jt.1 tiers.enum _
        (goodMap_insertPrimaryRows headers path jt.2.intervals m hm)

theorem goodMap_processDoc (p : String) (s headers : List String)
    (path : FsPath) (tiers : List AnnTier) (m : AlignedData)
    (hm : goodMap headers m) :
    goodMap headers (processDoc p s headers path tiers m) := by
  rw [processDoc_eq_body]
  exact goodMap_processDocBody p s headers path tiers m hm

theorem goodMap_foldFiles (p : String) (s headers : List String) :
    ∀ (files : List (FsPath × Option RawTextGrid)) (m m2 : AlignedData),
      goodMap headers m →
      foldFiles p s headers files m = Except.ok m2 → goodMap headers m2
  | [], m, m2, hm, hf => by
      injection hf with hf2
      rw [← hf2]
      exact hm
  | pf :: fs, m, m2, hm, hf => by
      cases htg : read_textgrid pf.1 pf.2 with
      | none =>
          rw [show foldFiles p s headers (pf :: fs) m =
            (match read_textgrid pf.1 pf.2 with
             | Option.none => Except.error ()
             | some tg => foldFiles p s headers fs
                 (processDoc p s headers pf.1 tg.tiers m)) from rfl, htg] at hf
          exact Except.noConfusion hf
      | some tg =>
          rw [show foldFiles p s headers (pf :: fs) m =
            (match read_textgrid pf.1 pf.2 with
             | Option.none => Except.error ()
             | some tg2 => foldFiles p s headers fs
                 (processDoc p s headers pf.1 tg2.tiers m)) from rfl, htg] at hf
          exact goodMap_foldFiles p s headers fs _ m2
            (goodMap_processDoc p s headers pf.1 tg.tiers m hm) hf

/-- C10: a secondary tier fills the FIRST header column carrying its
name — a secondary tier named like the primary overwrites the primary
slot, column 1; and any later duplicate column from position 2 on is
never populated in any produced row (concrete run: the duplicated
secondary name "word" writes the "dog" interval over the primary slot
while column 2 stays None). -/
theorem C10_first_header_wins :
    (∀ (p : String) (s : List String), p ≠ "filename" →
        firstIdx ("filename" :: p :: s) p = some 1) ∧
    (∀ (d : Dir) (p : String) (s : List String) (res : List String × List Row),
        d.isDir = true → d.isAbsolute = true →
        create_aligned_tier_table d p s = Except.ok res →
        ∀ row ∈ res.2, ∀ c, 2 ≤ c → dupCol ("filename" :: p :: s) c →
          row[c]? = some Cell.none) ∧
    create_aligned_tier_table dirDup "word" ["word"] =
      Except.ok (["filename", "word", "word"],
        [[Cell.path "/d/dup.TextGrid",
          Cell.interval
            { xmin := 0, xmax := 1, text := "dog",
              file_path := some "/d/dup.TextGrid", tier := some 1,
              textgrid := some "/d/dup.TextGrid", modified := some false },
          Cell.none]]) := by
  refine ⟨fun p s => firstIdx_primary_slot p s, ?_, rfl⟩
  intro d p s res hdir habs hok row hrow c hc hd
  obtain ⟨m, hfold, hres⟩ := create_rows_are_map_values d p s res hdir habs hok
  have hgood : goodMap ("filename" :: p :: s) m :=
    goodMap_foldFiles p s ("filename" :: p :: s) d.files [] m
      (fun e he => absurd he (List.not_mem_nil e)) hfold
  rw [hres] at hrow
  simp only at hrow
  obtain ⟨e, he, hfe⟩ := List.mem_map.mp hrow
  rw [← hfe]
  exact (hgood e he).2 c hc hd

theorem C10_first_header_wins_witness :
    firstIdx ["filename", "word", "word"] "word" = some 1 ∧
    [Cell.path "/d/dup.TextGrid",
      Cell.interval
        { xmin := 0, xmax := 1, text := "dog",
          file_path := some "/d/dup.TextGrid", tier := some 1,
          textgrid := some "/d/dup.TextGrid", modified := some false },
      Cell.none][2]? = some Cell.none :=
  ⟨C10_first_header_wins.1 "word" ["word"] (by decide),
   C10_first_header_wins.2.1 dirDup "word" ["word"] _ rfl rfl
     C10_first_header_wins.2.2
     [Cell.path "/d/dup.TextGrid",
      Cell.interval
        { xmin := 0, xmax := 1, text := "dog",
          file_path := some "/d/dup.TextGrid", tier := some 1,
          textgrid := some "/d/dup.TextGrid", modified := some false },
      Cell.none]
     (by exact List.mem_singleton.mpr rfl)
     2 (by omega) ⟨"word", 1, rfl, by omega, rfl⟩⟩

theorem C4_detector_amended_witness :
    detect_praat_encoding [0xff, 0xfe, 0x41] = PraatEncoding.utf16le ∧
    detect_praat_encoding [0xfe, 0xff, 0x41] = PraatEncoding.utf16be ∧
    detect_praat_encoding [0x41, 0x0a, 0xc3, 0xa9] = PraatEncoding.utf8 ∧
    detect_praat_encoding [0x41, 0x0a, 0xc3, 0x28] = PraatEncoding.latin1 :=
  ⟨(C4_detector_amended _).1 (by decide),
   (C4_detector_amended _).2.1 (by decide) (by decide),
   (C4_detector_amended _).2.2.1 (by decide) (by decide) (by decide),
   (C4_detector_amended _).2.2.2 (by decide) (by decide) (by decide)⟩

end TGX
